import Mathlib

/-!
Verification of the realtime-messenger core against its specification.

This file gives a shallow embedding of the parts of the repository that the
verified properties speak about:

* the server-side message router (send / onNew / onAnyNew) together with the
  participant authorization helpers, from the message router module;
* the in-process event distribution (registration list plus synchronous
  dispatch) that the router builds on top of the Node.js EventEmitter;
* the client connection manager and its exponential-backoff reconnection
  delay, from the tRPC client configuration module;
* the client-side optimistic-send reconciliation handlers of ChatView.tsx;
* the client-side and server-side message content validation.

Machine integers and timestamps are modelled as naturals, the jittered delay
computation over the rationals.  Fallible operations return Except values.
-/

namespace Messenger

/-- Sender summary included in every message event: the selected
(id, username) projection of the user row. -/
structure Sender where
  id : String
  username : String
deriving DecidableEq, Repr

/-- Wire shape of a delivered message event, from the message router:
{id, content, createdAt, threadId, sender}. -/
structure MessageEvent where
  id : String
  content : String
  createdAt : Nat
  threadId : String
  sender : Sender
deriving DecidableEq, Repr

/-- Stored message row as created by prisma.message.create in the send
mutation. -/
structure StoredMessage where
  id : String
  content : String
  threadId : String
  senderId : String
  createdAt : Nat
deriving DecidableEq, Repr

/-- Thread row; only the fields the send mutation touches. -/
structure Thread where
  id : String
  updatedAt : Nat
deriving DecidableEq, Repr

/-- tRPC error codes thrown by the procedures under verification. -/
inductive TRPCErr where
  | forbidden
  | unauthorized
deriving DecidableEq, Repr

/-- Persistent state visible to the message router: the ThreadParticipant
rows (userId, threadId), the message rows, the thread rows, and a counter
standing in for the database id generator. -/
structure DB where
  participants : List (String × String)
  messages : List StoredMessage
  threads : List Thread
  nextMessageId : Nat
deriving DecidableEq, Repr

/-- Membership lookup behind prisma.threadParticipant.findUnique on the
composite key (userId, threadId). -/
def isParticipant (db : DB) (userId threadId : String) : Bool :=
  db.participants.contains (userId, threadId)

/-- Authorization helper verifyThreadParticipant: succeeds when the user is a
recorded participant of the thread, otherwise fails with FORBIDDEN. -/
def verifyThreadParticipant (db : DB) (userId threadId : String) :
    Except TRPCErr Unit :=
  if isParticipant db userId threadId then Except.ok () else Except.error TRPCErr.forbidden

/-- getUserThreadIds: thread ids of all ThreadParticipant rows of the user,
computed by findMany on userId followed by the threadId projection. -/
def getUserThreadIds (db : DB) (userId : String) : List String :=
  (db.participants.filter (fun p => p.1 == userId)).map (fun p => p.2)

/-! ### Connection manager (client)

From the tRPC client configuration: the ConnectionManager class tracks a
ConnectionState and a reconnection attempt counter, and the createWSClient
onOpen / onClose callbacks drive it. -/

/-- The four connection states of the client connection manager. -/
inductive ConnState where
  | connecting
  | connected
  | disconnected
  | reconnecting
deriving DecidableEq, Repr

/-- Connection manager state: current ConnState plus the reconnect attempt
counter. -/
structure CM where
  state : ConnState
  reconnectAttempts : Nat
deriving DecidableEq, Repr

/-- maxReconnectAttempts of the ConnectionManager class. -/
def maxReconnectAttempts : Nat := 10

/-- shouldReconnect: the attempt counter is still below the maximum. -/
def shouldReconnect (cm : CM) : Bool :=
  cm.reconnectAttempts < maxReconnectAttempts

/-- Transport events observed by the createWSClient callbacks: a successful
open, or a close (recording whether an auth token is present at that
moment). -/
inductive WSEvent where
  | opened
  | closed (tokenPresent : Bool)
deriving DecidableEq, Repr

/-- The createWSClient onOpen callback: set state to connected and reset the
attempt counter. -/
def wsOnOpen (_cm : CM) : CM :=
  { state := ConnState.connected, reconnectAttempts := 0 }

/-- The createWSClient onClose callback: with no token present, go to
disconnected; otherwise increment the attempt counter, then go to
reconnecting while shouldReconnect holds and to disconnected once the
attempt budget is exhausted. -/
def wsOnClose (cm : CM) (tokenPresent : Bool) : CM :=
  if tokenPresent = false then
    { cm with state := ConnState.disconnected }
  else
    let cm' : CM := { cm with reconnectAttempts := cm.reconnectAttempts + 1 }
    if shouldReconnect cm' then
      { cm' with state := ConnState.reconnecting }
    else
      { cm' with state := ConnState.disconnected }

/-- One step of the connection state machine on a transport event. -/
def wsStep (cm : CM) : WSEvent → CM
  | WSEvent.opened => wsOnOpen cm
  | WSEvent.closed tok => wsOnClose cm tok

/-- Run the connection state machine over a list of transport events. -/
def wsRun (cm : CM) (events : List WSEvent) : CM :=
  events.foldl wsStep cm

/-- getReconnectDelay: exponential backoff min(1000 * 2^attempt, 30000) with
multiplicative jitter delay * 0.2 * (rand - 0.5) added, where rand models
the Math.random() draw. -/
def getReconnectDelay (attempt : Nat) (rand : ℚ) : ℚ :=
  let baseDelay : ℚ := 1000
  let maxDelay : ℚ := 30000
  let delay : ℚ := min (baseDelay * 2 ^ attempt) maxDelay
  let jitter : ℚ := delay * (2 / 10) * (rand - 1 / 2)
  delay + jitter

/-! ### Event distribution (server)

The router distributes events through a process-global EventEmitter: a
subscription registers a listener closure on a topic string, and the send
mutation emits to the thread topic and to the global channel.  Each listener
closure the router installs is one of two shapes, so listeners are embedded
first-order: the onNew closure forwards events whose threadId equals the
subscribed thread, and the onAnyNew closure forwards events whose threadId
lies in the membership snapshot taken at subscribe time. -/

/-- The two listener-closure shapes the message router registers. -/
inductive HFilter where
  | threadOnly (threadId : String)
  | snapshot (threadIds : List String)
deriving DecidableEq, Repr

/-- What a listener closure forwards to its client: onNew forwards events of
the subscribed thread, onAnyNew forwards events whose thread is in the
membership snapshot. -/
def HFilter.accepts : HFilter → MessageEvent → Bool
  | HFilter.threadOnly t, e => e.threadId == t
  | HFilter.snapshot ts, e => ts.contains e.threadId

/-- A registered listener: the topic it listens on, the id of the client
connection owning it, and its closure shape. -/
structure BusHandler where
  topic : String
  sid : Nat
  filt : HFilter
deriving DecidableEq, Repr

/-- Event-bus world: the emitter's listener list in registration order, and
per client connection the list of events forwarded to it so far (its
inbox), in delivery order. -/
structure BusWorld where
  handlers : List BusHandler
  inbox : Nat → List MessageEvent

/-- Synchronous dispatch of one emit: every currently-registered listener on
the topic runs in registration order, and each forwards the event to its
client when its closure accepts it. -/
def deliver (hs : List BusHandler) (topic : String) (e : MessageEvent)
    (inbox : Nat → List MessageEvent) : Nat → List MessageEvent :=
  hs.foldl
    (fun ib h =>
      if h.topic == topic && h.filt.accepts e then
        fun s => if s = h.sid then ib s ++ [e] else ib s
      else ib)
    inbox

/-- Bus operations: register a listener (emitter.on appends), remove a
listener (emitter.off), or emit an event on a topic. -/
inductive BusOp where
  | subscribe (h : BusHandler)
  | unsubscribe (h : BusHandler)
  | publish (topic : String) (e : MessageEvent)

/-- One bus operation applied to the world. -/
def busStep (w : BusWorld) : BusOp → BusWorld
  | BusOp.subscribe h => { w with handlers := w.handlers ++ [h] }
  | BusOp.unsubscribe h => { w with handlers := w.handlers.erase h }
  | BusOp.publish t e => { w with inbox := deliver w.handlers t e w.inbox }

/-- Run a list of bus operations in order. -/
def busRun (w : BusWorld) (ops : List BusOp) : BusWorld :=
  ops.foldl busStep w

/-- The events published to one topic by a list of bus operations, in
order. -/
def pubsTo (topic : String) : List BusOp → List MessageEvent
  | [] => []
  | BusOp.publish t e :: rest =>
      if t = topic then e :: pubsTo topic rest else pubsTo topic rest
  | _ :: rest => pubsTo topic rest

/-! ### Message router procedures (server) -/

/-- prisma.message.create of the send mutation: appends a message row whose
id comes from the id generator, and returns it. -/
def createMessage (db : DB) (threadId senderId content : String) (now : Nat) :
    StoredMessage × DB :=
  let m : StoredMessage :=
    { id := "m" ++ toString db.nextMessageId
      content := content
      threadId := threadId
      senderId := senderId
      createdAt := now }
  (m, { db with messages := db.messages ++ [m], nextMessageId := db.nextMessageId + 1 })

/-- prisma.thread.update of the send mutation: sets the thread's updatedAt
to the current time. -/
def touchThread (db : DB) (threadId : String) (now : Nat) : DB :=
  { db with
    threads := db.threads.map
      (fun t => if t.id == threadId then { t with updatedAt := now } else t) }

/-- The send mutation handler (its zod input schema is embedded separately
as checkSendContent): verify the caller is a participant, create the message
row, touch the thread's updatedAt, then emit the event on the thread topic
and on the global channel.  The FORBIDDEN throw happens before any of the
mutations, so on failure the database and the bus come back unchanged. -/
def send (db : DB) (w : BusWorld) (user : Sender) (threadId content : String)
    (now : Nat) : DB × BusWorld × Except TRPCErr MessageEvent :=
  match verifyThreadParticipant db user.id threadId with
  | Except.error e => (db, w, Except.error e)
  | Except.ok _ =>
    let r := createMessage db threadId user.id content now
    let db2 := touchThread r.2 threadId now
    let messageEvent : MessageEvent :=
      { id := r.1.id
        content := r.1.content
        createdAt := r.1.createdAt
        threadId := r.1.threadId
        sender := user }
    let w1 := busStep w (BusOp.publish ("thread:" ++ threadId) messageEvent)
    let w2 := busStep w1 (BusOp.publish "message:new" messageEvent)
    (db2, w2, Except.ok messageEvent)

/-- The onNew subscription procedure: verify the caller is a participant of
the thread; only then register the thread-scoped listener on the emitter.
On FORBIDDEN no listener is registered and the caller gets the error instead
of a subscription. -/
def messageOnNew (db : DB) (w : BusWorld) (userId threadId : String)
    (sid : Nat) : BusWorld × Except TRPCErr Unit :=
  match verifyThreadParticipant db userId threadId with
  | Except.error e => (w, Except.error e)
  | Except.ok _ =>
    (busStep w (BusOp.subscribe
      { topic := "thread:" ++ threadId, sid := sid, filt := HFilter.threadOnly threadId }),
      Except.ok ())

/-- The onAnyNew subscription procedure: take the membership snapshot once
via getUserThreadIds, then register a listener on the global channel that
filters through that snapshot. -/
def messageOnAnyNew (db : DB) (w : BusWorld) (userId : String) (sid : Nat) :
    BusWorld × Except TRPCErr Unit :=
  (busStep w (BusOp.subscribe
    { topic := "message:new", sid := sid,
      filt := HFilter.snapshot (getUserThreadIds db userId) }),
    Except.ok ())

/-! ### EventEmitter dispatch under listener failure

Models Node.js EventEmitter#emit, which backs messageEmitter.emit in the
message router: listeners run synchronously in registration order; when a
listener throws, its exception propagates out of emit and the remaining
listeners are not invoked.  A listener is carried as its id together with
whether it throws; emitDispatch returns the ids of the listeners that were
invoked and the id of the throwing listener, if any. -/

/-- A registered listener for the failure model: its id and whether its
callback throws when invoked. -/
structure BusListener where
  lid : Nat
  throws : Bool
deriving DecidableEq, Repr

/-- EventEmitter#emit dispatch: call listeners in order; a throwing listener
ends dispatch, its exception propagating to the emitter's caller. -/
def emitDispatch : List BusListener → List Nat × Option Nat
  | [] => ([], none)
  | l :: rest =>
    if l.throws then ([l.lid], some l.lid)
    else
      let r := emitDispatch rest
      (l.lid :: r.1, r.2)

/-! ### Content validation -/

/-- LIMITS.MESSAGE_MAX_LENGTH of the client validation utilities. -/
def MESSAGE_MAX_LENGTH : Nat := 5000

/-- Outcome of the zod input schema of message.send on the content field:
z.string().min(1, "Message cannot be empty").max(5000). -/
inductive ContentCheck where
  | ok
  | tooShort (msg : String)
  | tooLong
deriving DecidableEq, Repr

/-- The zod content checks of the send input schema, in schema order. -/
def checkSendContent (content : String) : ContentCheck :=
  if content.length < 1 then ContentCheck.tooShort "Message cannot be empty"
  else if content.length > 5000 then ContentCheck.tooLong
  else ContentCheck.ok

/-- The content.trim() call of validateMessage: drop whitespace from both
ends of the string. -/
def jsTrim (s : String) : String :=
  String.mk
    (((s.data.dropWhile Char.isWhitespace).reverse.dropWhile
        Char.isWhitespace).reverse)

/-- Client-side validateMessage: trim, reject when the trimmed string is
empty (falsy), reject trimmed content over MESSAGE_MAX_LENGTH characters,
otherwise accept. -/
def validateMessage (content : String) : Option String :=
  let trimmed := jsTrim content
  if trimmed = "" then some "Message cannot be empty"
  else if trimmed.length > MESSAGE_MAX_LENGTH then
    some "Message cannot exceed 5000 characters"
  else none

/-! ### Optimistic send reconciliation (client, ChatView)

ChatView keeps a localMessages list of display messages, each either a
confirmed message or an optimistic placeholder.  Two handlers reconcile it:
the subscription onData callback installs a pushed event, and the send
mutation onSuccess callback installs the HTTP confirmation.  Only their
localMessages updates are embedded; distinct placeholders always carry
distinct optimisticId strings, so the callback's reference inequality test
against the matched placeholder is embedded as structural inequality. -/

/-- Status of an optimistic placeholder. -/
inductive MsgStatus where
  | sending
  | sent
  | failed
deriving DecidableEq, Repr

/-- An optimistic placeholder: a not-yet-confirmed local message. -/
structure OptimisticMessage where
  id : String
  optimisticId : String
  content : String
  createdAt : Nat
  threadId : String
  sender : Sender
  status : MsgStatus
  errorText : Option String
deriving DecidableEq, Repr

/-- A display message of the localMessages list: a confirmed message or an
optimistic placeholder. -/
inductive DisplayMessage where
  | real (m : MessageEvent)
  | opt (m : OptimisticMessage)
deriving DecidableEq, Repr

/-- isOptimisticMessage: the status discriminant of the display union. -/
def isOptimisticMessage : DisplayMessage → Bool
  | DisplayMessage.real _ => false
  | DisplayMessage.opt _ => true

/-- The id of a display message. -/
def DisplayMessage.id : DisplayMessage → String
  | DisplayMessage.real m => m.id
  | DisplayMessage.opt m => m.id

/-- The content of a display message. -/
def DisplayMessage.content : DisplayMessage → String
  | DisplayMessage.real m => m.content
  | DisplayMessage.opt m => m.content

/-- The sender id of a display message. -/
def DisplayMessage.senderId : DisplayMessage → String
  | DisplayMessage.real m => m.sender.id
  | DisplayMessage.opt m => m.sender.id

/-- The subscription onData callback on localMessages: drop the pushed
message when its id is already present; otherwise replace the first
optimistic placeholder with the same sender id and content, if any, else
append. -/
def onDataHandler (message : MessageEvent) (prev : List DisplayMessage) :
    List DisplayMessage :=
  if prev.any (fun m => m.id == message.id) then prev
  else
    match prev.find? (fun m =>
        isOptimisticMessage m && m.senderId == message.sender.id &&
          m.content == message.content) with
    | some matchingOptimistic =>
        prev.filter (fun m => !(m == matchingOptimistic)) ++
          [DisplayMessage.real message]
    | none => prev ++ [DisplayMessage.real message]

/-- The send mutation onSuccess callback on localMessages: drop every
optimistic placeholder whose content equals the sent content, then append
the confirmed message unless its id is already present. -/
def onSuccessHandler (serverMessage : MessageEvent) (variablesContent : String)
    (prev : List DisplayMessage) : List DisplayMessage :=
  let filtered := prev.filter
    (fun m => !(isOptimisticMessage m) || m.content != variablesContent)
  if filtered.any (fun m => m.id == serverMessage.id) then filtered
  else filtered ++ [DisplayMessage.real serverMessage]

/-- Whether a bus operation registers a listener for the given client
connection (used to say a client does not re-subscribe in an interval). -/
def opAddsSid (s : Nat) : BusOp → Bool
  | BusOp.subscribe g => g.sid == s
  | _ => false

/-- Whether a bus operation registers or removes a listener of the given
client connection. -/
def opTouchesSid (s : Nat) : BusOp → Bool
  | BusOp.subscribe g => g.sid == s
  | BusOp.unsubscribe g => g.sid == s
  | BusOp.publish _ _ => false

/-- Whether a bus operation publishes, on the given listener's topic, an
event the listener's closure does not forward. -/
def opPubRejected (h : BusHandler) : BusOp → Bool
  | BusOp.publish t e => t == h.topic && !(h.filt.accepts e)
  | _ => false

end Messenger

namespace Messenger

/-! ### Lemmas about the connection state machine -/

/-- A close with a token present always increments the attempt counter by
one; a close without a token leaves it unchanged. -/
theorem wsOnClose_attempts (cm : CM) (tok : Bool) :
    (wsOnClose cm tok).reconnectAttempts =
      cm.reconnectAttempts + (if tok then 1 else 0) := by
  cases tok with
  | false => simp [wsOnClose]
  | true =>
    simp [wsOnClose, shouldReconnect]
    split <;> simp

/-- Once the attempt counter has reached the maximum, any close event lands
in the disconnected state with a counter still at or above the maximum. -/
theorem wsOnClose_saturated (cm : CM) (tok : Bool)
    (h : maxReconnectAttempts ≤ cm.reconnectAttempts) :
    (wsOnClose cm tok).state = ConnState.disconnected ∧
      maxReconnectAttempts ≤ (wsOnClose cm tok).reconnectAttempts := by
  cases tok with
  | false => simpa [wsOnClose] using h
  | true =>
    have hlt : ¬ (cm.reconnectAttempts + 1 < maxReconnectAttempts) := by omega
    constructor
    · simp [wsOnClose, shouldReconnect, hlt]
    · simp only [wsOnClose, shouldReconnect]
      simp [hlt]
      omega

/-- Running any sequence of close events from a saturated state keeps the
machine disconnected and saturated. -/
theorem wsRun_saturated (events : List WSEvent) :
    ∀ cm : CM, cm.state = ConnState.disconnected →
      maxReconnectAttempts ≤ cm.reconnectAttempts →
      (∀ e ∈ events, e ≠ WSEvent.opened) →
      (wsRun cm events).state = ConnState.disconnected ∧
        maxReconnectAttempts ≤ (wsRun cm events).reconnectAttempts := by
  induction events with
  | nil => intro cm hs ha _; exact ⟨hs, ha⟩
  | cons e rest ih =>
    intro cm hs ha hnoopen
    cases e with
    | opened => exact absurd rfl (hnoopen WSEvent.opened (List.mem_cons_self _ _))
    | closed tok =>
      have hstep := wsOnClose_saturated cm tok ha
      have := ih (wsOnClose cm tok) hstep.1 hstep.2
        (fun e he => hnoopen e (List.mem_cons_of_mem _ he))
      simpa [wsRun, wsStep] using this

/-- Folding n token-present closes adds n to the attempt counter. -/
theorem wsRun_closes_attempts (n : Nat) :
    ∀ cm : CM,
      (wsRun cm (List.replicate n (WSEvent.closed true))).reconnectAttempts =
        cm.reconnectAttempts + n := by
  induction n with
  | zero => intro cm; simp [wsRun]
  | succ k ih =>
    intro cm
    have h1 : (wsOnClose cm true).reconnectAttempts = cm.reconnectAttempts + 1 := by
      simpa using wsOnClose_attempts cm true
    calc (wsRun cm (List.replicate (k + 1) (WSEvent.closed true))).reconnectAttempts
        = (wsRun (wsOnClose cm true) (List.replicate k (WSEvent.closed true))).reconnectAttempts := by
          simp [wsRun, List.replicate_succ, wsStep]
      _ = (wsOnClose cm true).reconnectAttempts + k := ih (wsOnClose cm true)
      _ = cm.reconnectAttempts + (k + 1) := by omega

/-- A nonempty run of token-present closes ends disconnected as soon as the
accumulated attempt count reaches the maximum. -/
theorem wsRun_closes_state (n : Nat) (cm : CM)
    (hn : 1 ≤ n) (hmax : maxReconnectAttempts ≤ cm.reconnectAttempts + n) :
    (wsRun cm (List.replicate n (WSEvent.closed true))).state = ConnState.disconnected ∧
      maxReconnectAttempts ≤
        (wsRun cm (List.replicate n (WSEvent.closed true))).reconnectAttempts := by
  induction n generalizing cm with
  | zero => omega
  | succ k ih =>
    have hstep : wsRun cm (List.replicate (k + 1) (WSEvent.closed true)) =
        wsRun (wsOnClose cm true) (List.replicate k (WSEvent.closed true)) := by
      simp [wsRun, List.replicate_succ, wsStep]
    by_cases hk : 1 ≤ k
    · rw [hstep]
      apply ih (wsOnClose cm true) hk
      have := wsOnClose_attempts cm true
      simp at this
      omega
    · have hk0 : k = 0 := by omega
      subst hk0
      rw [hstep]
      have hsat : maxReconnectAttempts ≤ (wsOnClose cm true).reconnectAttempts := by
        have := wsOnClose_attempts cm true
        simp at this
        omega
      have hstate : (wsOnClose cm true).state = ConnState.disconnected := by
        have hlt : ¬ (cm.reconnectAttempts + 1 < maxReconnectAttempts) := by
          have := wsOnClose_attempts cm true
          simp at this
          omega
        simp [wsOnClose, shouldReconnect, hlt]
      simpa [wsRun] using ⟨hstate, hsat⟩

/-- C5: for every attempt number k and every random draw in [0, 1), the
computed reconnection delay lies within
[0.8 * min(1000 * 2^k, 30000), 1.2 * min(1000 * 2^k, 30000)]. -/
theorem getReconnectDelay_bounds (k : Nat) (rand : ℚ)
    (h0 : 0 ≤ rand) (h1 : rand < 1) :
    (8 : ℚ) / 10 * min (1000 * 2 ^ k) 30000 ≤ getReconnectDelay k rand ∧
      getReconnectDelay k rand ≤ (12 : ℚ) / 10 * min (1000 * 2 ^ k) 30000 := by
  have hD : (0 : ℚ) < min (1000 * 2 ^ k) 30000 :=
    lt_min (by positivity) (by norm_num)
  simp only [getReconnectDelay]
  constructor <;> nlinarith [hD, mul_nonneg hD.le h0]

/-- Witness for C5: at attempt 0 with draw 0 the delay is within the stated
bounds. -/
theorem getReconnectDelay_bounds_witness :
    (8 : ℚ) / 10 * min (1000 * 2 ^ 0) 30000 ≤ getReconnectDelay 0 0 ∧
      getReconnectDelay 0 0 ≤ (12 : ℚ) / 10 * min (1000 * 2 ^ 0) 30000 :=
  getReconnectDelay_bounds 0 0 (by norm_num) (by norm_num)

/-- C6: with an auth token present throughout, after maxReconnectAttempts
(10) consecutive close events without an intervening successful open, the
connection state is disconnected, and no further run of close events (token
present or not) ever changes it back to reconnecting: it stays
disconnected. -/
theorem connection_terminal_after_max_attempts (cm : CM) (n : Nat)
    (more : List WSEvent)
    (h0 : cm.reconnectAttempts = 0)
    (hn : maxReconnectAttempts ≤ n)
    (hmore : ∀ e ∈ more, e ≠ WSEvent.opened) :
    (wsRun cm (List.replicate n (WSEvent.closed true))).state = ConnState.disconnected ∧
      (wsRun cm (List.replicate n (WSEvent.closed true) ++ more)).state =
        ConnState.disconnected := by
  have hn1 : 1 ≤ n := le_trans (by decide) hn
  have hbase := wsRun_closes_state n cm hn1 (by omega)
  refine ⟨hbase.1, ?_⟩
  have hsplit : wsRun cm (List.replicate n (WSEvent.closed true) ++ more) =
      wsRun (wsRun cm (List.replicate n (WSEvent.closed true))) more := by
    simp [wsRun, List.foldl_append]
  rw [hsplit]
  exact (wsRun_saturated more _ hbase.1 hbase.2 hmore).1

/-- Witness for C6: from a fresh connected state, ten token-present closes
leave the machine disconnected, and it stays disconnected through further
closes with and without a token. -/
theorem connection_terminal_after_max_attempts_witness :
    (wsRun ⟨ConnState.connected, 0⟩ (List.replicate 10 (WSEvent.closed true))).state =
        ConnState.disconnected ∧
      (wsRun ⟨ConnState.connected, 0⟩ (List.replicate 10 (WSEvent.closed true) ++
          [WSEvent.closed true, WSEvent.closed false])).state = ConnState.disconnected :=
  connection_terminal_after_max_attempts ⟨ConnState.connected, 0⟩ 10
    [WSEvent.closed true, WSEvent.closed false] rfl (by decide) (by decide)

/-- C1: for every authenticated subscriber who is not a recorded participant
of the thread, the thread-scoped subscribe (message.onNew) returns the
FORBIDDEN error and the event bus comes back exactly as it was: no listener
is registered and the caller gets no stream, even transiently. -/
theorem onNew_forbidden_no_subscription (db : DB) (w : BusWorld)
    (userId threadId : String) (sid : Nat)
    (h : isParticipant db userId threadId = false) :
    messageOnNew db w userId threadId sid = (w, Except.error TRPCErr.forbidden) := by
  simp [messageOnNew, verifyThreadParticipant, h]

/-- Witness for C1: alice, a participant only of thread t2, is refused a
subscription to thread t1 and the bus is untouched. -/
theorem onNew_forbidden_no_subscription_witness :
    messageOnNew ⟨[("alice", "t2")], [], [], 0⟩ ⟨[], fun _ => []⟩ "alice" "t1" 7 =
      (⟨[], fun _ => []⟩, Except.error TRPCErr.forbidden) :=
  onNew_forbidden_no_subscription ⟨[("alice", "t2")], [], [], 0⟩ ⟨[], fun _ => []⟩
    "alice" "t1" 7 (by decide)

/-- C10: for every authenticated user who is not a participant of the
thread, the send mutation returns the FORBIDDEN error with the database and
the event bus exactly as they were: no message row is created, no thread's
updatedAt is touched, and no event is published on the thread topic or the
global channel. -/
theorem send_forbidden_atomic (db : DB) (w : BusWorld) (user : Sender)
    (threadId content : String) (now : Nat)
    (h : isParticipant db user.id threadId = false) :
    send db w user threadId content now = (db, w, Except.error TRPCErr.forbidden) := by
  simp [send, verifyThreadParticipant, h]

/-- Witness for C10: alice, a participant only of thread t2, cannot send to
thread t1; database and bus are returned unchanged. -/
theorem send_forbidden_atomic_witness :
    send ⟨[("alice", "t2")], [], [⟨"t1", 0⟩], 0⟩ ⟨[], fun _ => []⟩
        ⟨"alice", "alice"⟩ "t1" "hi" 5 =
      (⟨[("alice", "t2")], [], [⟨"t1", 0⟩], 0⟩, ⟨[], fun _ => []⟩,
        Except.error TRPCErr.forbidden) :=
  send_forbidden_atomic ⟨[("alice", "t2")], [], [⟨"t1", 0⟩], 0⟩ ⟨[], fun _ => []⟩
    ⟨"alice", "alice"⟩ "t1" "hi" 5 (by decide)

/-- C9: the send input schema accepts exactly the contents of length 1 to
5000 and rejects the empty string with the message "Message cannot be
empty"; the client-side validateMessage enforces the same bound on the
trimmed content. -/
theorem send_content_validation (content : String) :
    (checkSendContent content = ContentCheck.ok ↔
        1 ≤ content.length ∧ content.length ≤ 5000) ∧
      checkSendContent "" = ContentCheck.tooShort "Message cannot be empty" ∧
      (validateMessage content = none ↔
        1 ≤ (jsTrim content).length ∧ (jsTrim content).length ≤ 5000) ∧
      validateMessage "" = some "Message cannot be empty" := by
  have hempty : ∀ s : String, s.length = 0 ↔ s = "" := by
    intro s
    cases s with
    | mk data =>
      constructor
      · intro h
        simp [String.length] at h
        simp [h]
      · intro h
        rw [h]
        rfl
  refine ⟨?_, rfl, ?_, by decide⟩
  · unfold checkSendContent
    split_ifs with h1 h2 <;> simp <;> omega
  · simp only [validateMessage, MESSAGE_MAX_LENGTH]
    split_ifs with h1 h2
    · have h0 : (jsTrim content).length = 0 := (hempty _).mpr h1
      simp
      omega
    · simp
      omega
    · have h0 : ¬ (jsTrim content).length = 0 := fun hh => h1 ((hempty _).mp hh)
      simp
      omega

/-- C7 counterexample: with a throwing first listener and a second listener
behind it, emit does not invoke the second listener and the exception
propagates to the publisher, so dispatch does not isolate a handler's
failure. -/
theorem emit_no_isolation_counterexample :
    2 ∉ (emitDispatch [⟨1, true⟩, ⟨2, false⟩]).1 ∧
      (emitDispatch [⟨1, true⟩, ⟨2, false⟩]).2 ≠ none := by
  decide

/-- C7 (amended): during emit the listeners registered before the first
throwing listener all receive the event in order, the throwing listener's
exception propagates out of emit to the publisher, and the listeners
registered after it do not receive the event. -/
theorem emitDispatch_stops_at_thrower (pre post : List BusListener)
    (l : BusListener)
    (hpre : ∀ g ∈ pre, g.throws = false) (hl : l.throws = true) :
    emitDispatch (pre ++ l :: post) =
      (pre.map BusListener.lid ++ [l.lid], some l.lid) := by
  induction pre with
  | nil => simp [emitDispatch, hl]
  | cons g rest ih =>
    have hg : g.throws = false := hpre g (List.mem_cons_self _ _)
    simp [emitDispatch, hg,
      ih (fun x hx => hpre x (List.mem_cons_of_mem _ hx))]

/-- Witness for C7 (amended): listener 1 receives the event, listener 2
throws, listener 3 is skipped, and the exception reaches the publisher. -/
theorem emitDispatch_stops_at_thrower_witness :
    emitDispatch [⟨1, false⟩, ⟨2, true⟩, ⟨3, false⟩] = ([1, 2], some 2) :=
  emitDispatch_stops_at_thrower [⟨1, false⟩] [⟨3, false⟩] ⟨2, true⟩
    (by decide) rfl

/-! ### Lemmas about bus dispatch -/

/-- What one emit appends to one client's inbox: one copy of the event per
registered listener of that client whose topic matches and whose closure
accepts the event. -/
theorem deliver_inbox (hs : List BusHandler) (topic : String) (e : MessageEvent)
    (ib : Nat → List MessageEvent) (s : Nat) :
    deliver hs topic e ib s =
      ib s ++ List.replicate
        ((hs.filter (fun h => h.sid == s && (h.topic == topic && h.filt.accepts e))).length)
        e := by
  induction hs generalizing ib with
  | nil => simp [deliver]
  | cons h rest ih =>
    have hstep : deliver (h :: rest) topic e ib =
        deliver rest topic e
          (if h.topic == topic && h.filt.accepts e then
            (fun t => if t = h.sid then ib t ++ [e] else ib t) else ib) := rfl
    rw [hstep]
    by_cases hc : (h.topic == topic && h.filt.accepts e) = true
    · rw [if_pos hc, ih]
      by_cases hsid : s = h.sid
      · have hsb : (h.sid == s) = true := by simp [hsid]
        simp [List.filter_cons, hc, hsb, hsid, List.replicate_succ]
      · have hsb : (h.sid == s) = false := by
          simp only [beq_eq_false_iff_ne]
          exact fun hh => hsid hh.symm
        simp [List.filter_cons, hsb, hsid]
    · rw [if_neg hc, ih]
      have hb : (h.topic == topic && h.filt.accepts e) = false :=
        Bool.eq_false_iff.mpr hc
      simp [List.filter_cons, hb]

/-- When every listener of a client is one fixed listener, the matching
count of an emit is that listener's own match, once per registration. -/
theorem filter_sid_unique_length (hs : List BusHandler) (h : BusHandler)
    (q : BusHandler → Bool)
    (huniq : ∀ g ∈ hs, g.sid = h.sid → g = h) :
    (hs.filter (fun g => g.sid == h.sid && q g)).length =
      if q h then hs.count h else 0 := by
  induction hs with
  | nil => simp
  | cons g rest ih =>
    have ihr := ih (fun x hx hsx => huniq x (List.mem_cons_of_mem _ hx) hsx)
    by_cases hg : g = h
    · subst hg
      by_cases hq : q g = true
      · simp [List.filter_cons, hq, List.count_cons, ihr]
      · have hq' : q g = false := Bool.eq_false_iff.mpr hq
        simp [List.filter_cons, hq', ihr]
    · have hsid : g.sid ≠ h.sid := fun hh =>
        hg (huniq g (List.mem_cons_self _ _) hh)
      have hpred : (g.sid == h.sid && q g) = false := by
        simp [hsid]
      have hcnt : (g :: rest).count h = rest.count h :=
        List.count_cons_of_ne (fun hh => hg hh.symm) rest
      simp [List.filter_cons, hpred, hcnt, ihr]

/-- C8: a client with exactly one registered listener, which no operation of
the interval registers again or removes, receives over that interval exactly
the events published to its topic, in publish order, each exactly once —
provided its closure forwards each of them (as the router's thread-scoped
closure does for its thread's events). -/
theorem bus_ordered_exact_delivery (ops : List BusOp) (w : BusWorld)
    (h : BusHandler)
    (huniq : ∀ g ∈ w.handlers, g.sid = h.sid → g = h)
    (hcount : w.handlers.count h = 1)
    (hops : ops.all
      (fun op => !(opTouchesSid h.sid op) && !(opPubRejected h op)) = true) :
    (busRun w ops).inbox h.sid = w.inbox h.sid ++ pubsTo h.topic ops := by
  induction ops generalizing w with
  | nil => simp [busRun, pubsTo]
  | cons op rest ih =>
    have hcons : busRun w (op :: rest) = busRun (busStep w op) rest := rfl
    rw [List.all_cons, Bool.and_eq_true] at hops
    obtain ⟨hop, hrest⟩ := hops
    rw [Bool.and_eq_true] at hop
    obtain ⟨htouch, hrej⟩ := hop
    rw [hcons]
    cases op with
    | subscribe g =>
      have hgs : g.sid ≠ h.sid := by
        simp [opTouchesSid] at htouch
        exact htouch
      have hgh : g ≠ h := fun hh => hgs (by rw [hh])
      have huniq' : ∀ x ∈ (busStep w (BusOp.subscribe g)).handlers,
          x.sid = h.sid → x = h := by
        intro x hx hxs
        simp [busStep] at hx
        cases hx with
        | inl hx => exact huniq x hx hxs
        | inr hx => exact absurd (hx ▸ hxs) hgs
      have hcount' : (busStep w (BusOp.subscribe g)).handlers.count h = 1 := by
        have hzero : List.count h [g] = 0 :=
          List.count_eq_zero.mpr (by simpa using hgh.symm)
        simp only [busStep]
        rw [List.count_append, hzero, hcount]
      have := ih (busStep w (BusOp.subscribe g)) huniq' hcount' hrest
      simpa [busStep, pubsTo] using this
    | unsubscribe g =>
      have hgs : g.sid ≠ h.sid := by
        simp [opTouchesSid] at htouch
        exact htouch
      have hgh : h ≠ g := fun hh => hgs (by rw [hh])
      have huniq' : ∀ x ∈ (busStep w (BusOp.unsubscribe g)).handlers,
          x.sid = h.sid → x = h := by
        intro x hx hxs
        exact huniq x (List.mem_of_mem_erase (by simpa [busStep] using hx)) hxs
      have hcount' : (busStep w (BusOp.unsubscribe g)).handlers.count h = 1 := by
        simp only [busStep]
        rw [List.count_erase_of_ne hgh]
        exact hcount
      have := ih (busStep w (BusOp.unsubscribe g)) huniq' hcount' hrest
      simpa [busStep, pubsTo] using this
    | publish t e =>
      have hinb : (busStep w (BusOp.publish t e)).inbox h.sid =
          w.inbox h.sid ++ List.replicate
            (if (h.topic == t && h.filt.accepts e) then w.handlers.count h else 0) e := by
        simp only [busStep]
        rw [deliver_inbox]
        rw [filter_sid_unique_length w.handlers h
          (fun g => g.topic == t && g.filt.accepts e) huniq]
      have := ih (busStep w (BusOp.publish t e)) (by simpa [busStep] using huniq)
        (by simpa [busStep] using hcount) hrest
      rw [this, hinb, hcount]
      by_cases ht : t = h.topic
      · have hacc : h.filt.accepts e = true := by
          simp [opPubRejected, ht] at hrej
          exact hrej
        have hq : (h.topic == t && h.filt.accepts e) = true := by
          simp [ht, hacc]
        simp [hq, hacc, pubsTo, ht, List.replicate_succ]
      · have hq : (h.topic == t && h.filt.accepts e) = false := by
          have : (h.topic == t) = false := by
            simp only [beq_eq_false_iff_ne]
            exact fun hh => ht hh.symm
          simp [this]
        simp [hq, pubsTo, ht]

/-- Witness for C8: one registered listener for thread t1; over an interval
with two publishes to its topic, one publish to another topic, and a
subscribe and unsubscribe of another client, its inbox receives exactly the
two t1 events in order. -/
theorem bus_ordered_exact_delivery_witness :
    (busRun ⟨[⟨"thread:t1", 5, HFilter.threadOnly "t1"⟩], fun _ => []⟩
        [BusOp.publish "thread:t1" ⟨"m1", "a", 0, "t1", ⟨"u1", "alice"⟩⟩,
          BusOp.subscribe ⟨"thread:t2", 6, HFilter.threadOnly "t2"⟩,
          BusOp.publish "thread:t2" ⟨"m2", "b", 1, "t2", ⟨"u2", "bob"⟩⟩,
          BusOp.publish "thread:t1" ⟨"m3", "c", 2, "t1", ⟨"u1", "alice"⟩⟩,
          BusOp.unsubscribe ⟨"thread:t2", 6, HFilter.threadOnly "t2"⟩]).inbox 5 =
      ([] : List MessageEvent) ++
        pubsTo "thread:t1"
          [BusOp.publish "thread:t1" ⟨"m1", "a", 0, "t1", ⟨"u1", "alice"⟩⟩,
            BusOp.subscribe ⟨"thread:t2", 6, HFilter.threadOnly "t2"⟩,
            BusOp.publish "thread:t2" ⟨"m2", "b", 1, "t2", ⟨"u2", "bob"⟩⟩,
            BusOp.publish "thread:t1" ⟨"m3", "c", 2, "t1", ⟨"u1", "alice"⟩⟩,
            BusOp.unsubscribe ⟨"thread:t2", 6, HFilter.threadOnly "t2"⟩] :=
  bus_ordered_exact_delivery
    [BusOp.publish "thread:t1" ⟨"m1", "a", 0, "t1", ⟨"u1", "alice"⟩⟩,
      BusOp.subscribe ⟨"thread:t2", 6, HFilter.threadOnly "t2"⟩,
      BusOp.publish "thread:t2" ⟨"m2", "b", 1, "t2", ⟨"u2", "bob"⟩⟩,
      BusOp.publish "thread:t1" ⟨"m3", "c", 2, "t1", ⟨"u1", "alice"⟩⟩,
      BusOp.unsubscribe ⟨"thread:t2", 6, HFilter.threadOnly "t2"⟩]
    ⟨[⟨"thread:t1", 5, HFilter.threadOnly "t1"⟩], fun _ => []⟩
    ⟨"thread:t1", 5, HFilter.threadOnly "t1"⟩
    (by decide) (by decide) (by decide)

/-- A thread the user does not participate in is not in the membership
snapshot getUserThreadIds computes. -/
theorem not_mem_getUserThreadIds (db : DB) (userId T : String)
    (h : isParticipant db userId T = false) : T ∉ getUserThreadIds db userId := by
  intro hmem
  simp only [getUserThreadIds, List.mem_map, List.mem_filter] at hmem
  obtain ⟨p, ⟨hpmem, hpuser⟩, hpT⟩ := hmem
  have hp : p = (userId, T) := by
    cases p with
    | mk a b =>
      simp at hpuser hpT
      simp [hpuser, hpT]
  rw [hp] at hpmem
  have : isParticipant db userId T = true := List.elem_eq_true_of_mem hpmem
  rw [h] at this
  exact Bool.false_ne_true this

/-- Invariant run: when every listener a client has rejects events of one
thread and its inbox holds none of them, then after any operations that do
not register new listeners for that client, its inbox still holds none. -/
theorem busRun_no_thread_events (ops : List BusOp) (sid : Nat) (T : String) :
    ∀ w : BusWorld,
      (∀ g ∈ w.handlers, g.sid = sid →
        ∀ e : MessageEvent, e.threadId = T → g.filt.accepts e = false) →
      (∀ e ∈ w.inbox sid, e.threadId ≠ T) →
      ops.all (fun op => !(opAddsSid sid op)) = true →
      ∀ e ∈ (busRun w ops).inbox sid, e.threadId ≠ T := by
  induction ops with
  | nil => intro w _ hinb _; exact hinb
  | cons op rest ih =>
    intro w hrej hinb hops
    rw [List.all_cons, Bool.and_eq_true] at hops
    obtain ⟨hop, hrest⟩ := hops
    have hcons : busRun w (op :: rest) = busRun (busStep w op) rest := rfl
    rw [hcons]
    cases op with
    | subscribe g =>
      have hgs : g.sid ≠ sid := by
        simp [opAddsSid] at hop
        exact hop
      apply ih (busStep w (BusOp.subscribe g)) _ hinb hrest
      intro x hx hxs e he
      simp [busStep] at hx
      cases hx with
      | inl hx => exact hrej x hx hxs e he
      | inr hx => exact absurd (hx ▸ hxs) hgs
    | unsubscribe g =>
      apply ih (busStep w (BusOp.unsubscribe g)) _ hinb hrest
      intro x hx hxs e he
      exact hrej x (List.mem_of_mem_erase (by simpa [busStep] using hx)) hxs e he
    | publish t ev =>
      apply ih (busStep w (BusOp.publish t ev)) hrej _ hrest
      intro x hx
      have hdel : (busStep w (BusOp.publish t ev)).inbox sid =
          w.inbox sid ++ List.replicate
            ((w.handlers.filter
              (fun g => g.sid == sid && (g.topic == t && g.filt.accepts ev))).length) ev := by
        simp only [busStep]
        exact deliver_inbox w.handlers t ev w.inbox sid
      rw [hdel] at hx
      rcases List.mem_append.mp hx with hold | hnew
      · exact hinb x hold
      · intro hxT
        have hxe : x = ev := List.eq_of_mem_replicate hnew
        have hevT : ev.threadId = T := hxe ▸ hxT
        have hlen : (w.handlers.filter
            (fun g => g.sid == sid && (g.topic == t && g.filt.accepts ev))).length = 0 := by
          rw [List.length_eq_zero, List.filter_eq_nil_iff]
          intro g hg
          by_cases hgs : g.sid = sid
          · have hacc := hrej g hg hgs ev hevT
            simp [hacc]
          · have hb : (g.sid == sid) = false := by simpa using hgs
            simp [hb]
        rw [hlen] at hnew
        simp at hnew

/-- C2: the membership set of a global-channel subscription is the snapshot
taken at subscription-establishment time; a subscriber who was not a
participant of thread T when it subscribed receives no event of T over any
later run of bus operations in which it does not re-subscribe, whatever
those operations do to the database or to other subscriptions. -/
theorem onAnyNew_membership_snapshot (db : DB) (w : BusWorld) (userId T : String)
    (sid : Nat) (ops : List BusOp)
    (hnp : isParticipant db userId T = false)
    (hfresh : ∀ g ∈ w.handlers, g.sid ≠ sid)
    (hinit : w.inbox sid = [])
    (hops : ops.all (fun op => !(opAddsSid sid op)) = true) :
    ((busRun (messageOnAnyNew db w userId sid).1 ops).inbox sid).all
      (fun e => e.threadId != T) = true := by
  rw [List.all_eq_true]
  intro e he
  have hT : e.threadId ≠ T := by
    revert he
    apply busRun_no_thread_events ops sid T (messageOnAnyNew db w userId sid).1
      _ _ hops e
    · intro g hg hgs ev hev
      simp [messageOnAnyNew, busStep] at hg
      cases hg with
      | inl hg => exact absurd hgs (hfresh g hg)
      | inr hg =>
        subst hg
        simp only [HFilter.accepts]
        rw [hev]
        rw [Bool.eq_false_iff]
        intro hc
        exact not_mem_getUserThreadIds db userId T hnp
          (List.mem_of_elem_eq_true hc)
    · intro ev hev
      simp [messageOnAnyNew, busStep, hinit] at hev
  simpa using hT

/-- Witness for C2: alice subscribes to the global channel while only bob
participates in thread t9; after alice is (conceptually) added to t9 and an
event of t9 is published, her subscription still delivers no t9 event. -/
theorem onAnyNew_membership_snapshot_witness :
    ((busRun (messageOnAnyNew ⟨[("bob", "t9")], [], [], 0⟩ ⟨[], fun _ => []⟩
          "alice" 3).1
        [BusOp.publish "message:new" ⟨"m1", "x", 0, "t9", ⟨"bob", "bob"⟩⟩]).inbox 3).all
      (fun e => e.threadId != "t9") = true :=
  onAnyNew_membership_snapshot ⟨[("bob", "t9")], [], [], 0⟩ ⟨[], fun _ => []⟩
    "alice" "t9" 3
    [BusOp.publish "message:new" ⟨"m1", "x", 0, "t9", ⟨"bob", "bob"⟩⟩]
    (by decide) (by simp) rfl (by decide)

/-! ### Lemmas about reconciliation -/

/-- A list whose filtering leaves one element splits around that element,
with the predicate false everywhere else. -/
theorem filter_eq_singleton_split {α : Type} (p : α → Bool) :
    ∀ (l : List α) (x : α), l.filter p = [x] →
      ∃ a b, l = a ++ x :: b ∧ (∀ m ∈ a, p m = false) ∧ ∀ m ∈ b, p m = false := by
  intro l
  induction l with
  | nil => intro x h; simp at h
  | cons c rest ih =>
    intro x h
    rw [List.filter_cons] at h
    by_cases hc : p c = true
    · rw [if_pos hc] at h
      rw [List.cons_eq_cons] at h
      obtain ⟨hcx, hrest⟩ := h
      refine ⟨[], rest, by simp [hcx], by simp, ?_⟩
      intro m hm
      exact Bool.eq_false_iff.mpr (List.filter_eq_nil_iff.mp hrest m hm)
    · rw [if_neg hc] at h
      obtain ⟨a, b, hl, ha, hb⟩ := ih x h
      refine ⟨c :: a, b, by simp [hl], ?_, hb⟩
      intro m hm
      rcases List.mem_cons.mp hm with hm | hm
      · exact hm ▸ Bool.eq_false_iff.mpr hc
      · exact ha m hm

/-- find? over a list whose prefix all fails the predicate returns the
first passing element after it. -/
theorem find_first_after_prefix {α : Type} (p : α → Bool) (a : List α)
    (b : List α) (x : α)
    (ha : ∀ m ∈ a, p m = false) (hx : p x = true) :
    (a ++ x :: b).find? p = some x := by
  induction a with
  | nil => simp [List.find?_cons, hx]
  | cons c rest ih =>
    have hc := ha c (List.mem_cons_self _ _)
    rw [List.cons_append, List.find?_cons, hc]
    exact ih (fun m hm => ha m (List.mem_cons_of_mem _ hm))

/-- C3 counterexample: with the confirmed message m1 already installed and a
second optimistic placeholder of the same content still pending, a later run
of the confirmation handler for m1 changes the list (it drops that
placeholder), so a later arrival via the confirmation handler does not
always leave the list unchanged. -/
theorem reconcile_confirm_changes_list_counterexample :
    ([DisplayMessage.real ⟨"m1", "hi", 0, "t1", ⟨"u1", "alice"⟩⟩,
        DisplayMessage.opt
          ⟨"opt-2", "opt-2", "hi", 1, "t1", ⟨"u1", "alice"⟩, MsgStatus.sending, none⟩].any
      (fun m => m.id == "m1") = true) ∧
      onSuccessHandler ⟨"m1", "hi", 0, "t1", ⟨"u1", "alice"⟩⟩ "hi"
          [DisplayMessage.real ⟨"m1", "hi", 0, "t1", ⟨"u1", "alice"⟩⟩,
            DisplayMessage.opt
              ⟨"opt-2", "opt-2", "hi", 1, "t1", ⟨"u1", "alice"⟩, MsgStatus.sending, none⟩] ≠
        [DisplayMessage.real ⟨"m1", "hi", 0, "t1", ⟨"u1", "alice"⟩⟩,
          DisplayMessage.opt
            ⟨"opt-2", "opt-2", "hi", 1, "t1", ⟨"u1", "alice"⟩, MsgStatus.sending, none⟩] := by
  decide

/-- C3 (amended): reconciliation is idempotent on the confirmed message id
in this sense: once an entry with the pushed id is present, the push handler
returns the list unchanged; the confirmation handler applied to a list
already holding the confirmed (non-optimistic) entry returns the list with
the optimistic placeholders of the sent content removed and makes no other
change — in particular it never adds a second entry, so with the id present
exactly once before, exactly one entry with that id exists afterwards. -/
theorem reconcile_idempotent_on_id (s : List DisplayMessage) (M : MessageEvent)
    (c : String)
    (hmem : ∃ m ∈ s, isOptimisticMessage m = false ∧ m.id = M.id)
    (hcount : (s.filter (fun m => m.id == M.id)).length = 1) :
    onDataHandler M s = s ∧
      onSuccessHandler M c s =
        s.filter (fun m => !(isOptimisticMessage m) || m.content != c) ∧
      ((onSuccessHandler M c s).filter (fun m => m.id == M.id)).length = 1 := by
  obtain ⟨m0, hm0s, hm0opt, hm0id⟩ := hmem
  have hany : s.any (fun m => m.id == M.id) = true :=
    List.any_eq_true.mpr ⟨m0, hm0s, by simp [hm0id]⟩
  have hdata : onDataHandler M s = s := by
    simp [onDataHandler, hany]
  have hm0keep : (!(isOptimisticMessage m0) || m0.content != c) = true := by
    simp [hm0opt]
  have hm0f : m0 ∈ s.filter (fun m => !(isOptimisticMessage m) || m.content != c) :=
    List.mem_filter.mpr ⟨hm0s, hm0keep⟩
  have hany2 : (s.filter (fun m => !(isOptimisticMessage m) || m.content != c)).any
      (fun m => m.id == M.id) = true :=
    List.any_eq_true.mpr ⟨m0, hm0f, by simp [hm0id]⟩
  have hsucc : onSuccessHandler M c s =
      s.filter (fun m => !(isOptimisticMessage m) || m.content != c) := by
    simp [onSuccessHandler, hany2]
  refine ⟨hdata, hsucc, ?_⟩
  rw [hsucc]
  have hsub : ((s.filter (fun m => !(isOptimisticMessage m) || m.content != c)).filter
        (fun m => m.id == M.id)).Sublist
      (s.filter (fun m => m.id == M.id)) :=
    List.Sublist.filter _ (List.filter_sublist s)
  have hle := hsub.length_le
  have hge : m0 ∈ (s.filter (fun m => !(isOptimisticMessage m) || m.content != c)).filter
      (fun m => m.id == M.id) :=
    List.mem_filter.mpr ⟨hm0f, by simp [hm0id]⟩
  have hpos := List.length_pos.mpr (List.ne_nil_of_mem hge)
  omega

/-- Witness for C3 (amended): with the confirmed entry m1 alone in the list,
a duplicate push is dropped, the confirmation run removes nothing further,
and exactly one entry with id m1 remains. -/
theorem reconcile_idempotent_on_id_witness :
    onDataHandler ⟨"m1", "hi", 0, "t1", ⟨"u1", "alice"⟩⟩
        [DisplayMessage.real ⟨"m1", "hi", 0, "t1", ⟨"u1", "alice"⟩⟩] =
      [DisplayMessage.real ⟨"m1", "hi", 0, "t1", ⟨"u1", "alice"⟩⟩] ∧
      onSuccessHandler ⟨"m1", "hi", 0, "t1", ⟨"u1", "alice"⟩⟩ "hi"
          [DisplayMessage.real ⟨"m1", "hi", 0, "t1", ⟨"u1", "alice"⟩⟩] =
        [DisplayMessage.real ⟨"m1", "hi", 0, "t1", ⟨"u1", "alice"⟩⟩].filter
          (fun m => !(isOptimisticMessage m) || m.content != "hi") ∧
      ((onSuccessHandler ⟨"m1", "hi", 0, "t1", ⟨"u1", "alice"⟩⟩ "hi"
          [DisplayMessage.real ⟨"m1", "hi", 0, "t1", ⟨"u1", "alice"⟩⟩]).filter
        (fun m => m.id == "m1")).length = 1 :=
  reconcile_idempotent_on_id
    [DisplayMessage.real ⟨"m1", "hi", 0, "t1", ⟨"u1", "alice"⟩⟩]
    ⟨"m1", "hi", 0, "t1", ⟨"u1", "alice"⟩⟩ "hi" (by decide) (by decide)

/-- C4: when the push for a logical message arrives before the HTTP
confirmation — the list holds no entry with the confirmed id yet and exactly
one optimistic placeholder of the message's content, which carries the
message's sender — the push handler removes that matching placeholder and
installs the pushed message, and the confirmation handler run afterwards on
the resulting list, whose confirmed id is already present, leaves it
unchanged. -/
theorem push_first_confirmation_noop (s : List DisplayMessage)
    (M : MessageEvent) (O : OptimisticMessage)
    (hid : ∀ m ∈ s, m.id ≠ M.id)
    (hone : s.filter (fun m => isOptimisticMessage m && m.content == M.content) =
      [DisplayMessage.opt O])
    (hsender : O.sender.id = M.sender.id) :
    onDataHandler M s =
      s.filter (fun m => !(m == DisplayMessage.opt O)) ++ [DisplayMessage.real M] ∧
      onSuccessHandler M M.content (onDataHandler M s) = onDataHandler M s := by
  have hOpred : (isOptimisticMessage (DisplayMessage.opt O) &&
      (DisplayMessage.opt O).content == M.content) = true := by
    have hOin : DisplayMessage.opt O ∈ s.filter
        (fun m => isOptimisticMessage m && m.content == M.content) := by
      rw [hone]; exact List.mem_cons_self _ _
    exact (List.mem_filter.mp hOin).2
  have hOcontent : ((DisplayMessage.opt O).content == M.content) = true :=
    Bool.and_elim_right hOpred
  obtain ⟨a, b, hs, ha, hb⟩ := filter_eq_singleton_split _ s (DisplayMessage.opt O) hone
  subst hs
  have hany : ((a ++ DisplayMessage.opt O :: b).any (fun m => m.id == M.id)) = false := by
    rw [List.any_eq_false]
    intro m hm
    simp only [beq_iff_eq]
    exact hid m hm
  have hpa : ∀ m ∈ a, (isOptimisticMessage m && m.senderId == M.sender.id &&
      m.content == M.content) = false := by
    intro m hm
    have hp := ha m hm
    cases hio : isOptimisticMessage m with
    | false => simp [hio]
    | true =>
      rw [hio] at hp
      rw [Bool.true_and] at hp
      simp [hp]
  have hpO : (isOptimisticMessage (DisplayMessage.opt O) &&
      (DisplayMessage.opt O).senderId == M.sender.id &&
      (DisplayMessage.opt O).content == M.content) = true := by
    simp [isOptimisticMessage, DisplayMessage.senderId, hsender, hOcontent]
  have hfind : (a ++ DisplayMessage.opt O :: b).find?
      (fun m => isOptimisticMessage m && m.senderId == M.sender.id &&
        m.content == M.content) = some (DisplayMessage.opt O) :=
    find_first_after_prefix _ a b (DisplayMessage.opt O) hpa hpO
  have hdata : onDataHandler M (a ++ DisplayMessage.opt O :: b) =
      (a ++ DisplayMessage.opt O :: b).filter
        (fun m => !(m == DisplayMessage.opt O)) ++ [DisplayMessage.real M] := by
    rw [onDataHandler, if_neg (by simp [hany]), hfind]
  have hne : ∀ m, (isOptimisticMessage m && m.content == M.content) = false →
      (!(m == DisplayMessage.opt O)) = true := by
    intro m hm
    have : m ≠ DisplayMessage.opt O := by
      intro hmo
      rw [hmo] at hm
      rw [hOpred] at hm
      exact Bool.noConfusion hm
    simp [this]
  have hfa : a.filter (fun m => !(m == DisplayMessage.opt O)) = a :=
    List.filter_eq_self.mpr (fun m hm => hne m (ha m hm))
  have hfb : b.filter (fun m => !(m == DisplayMessage.opt O)) = b :=
    List.filter_eq_self.mpr (fun m hm => hne m (hb m hm))
  have hfilter : (a ++ DisplayMessage.opt O :: b).filter
      (fun m => !(m == DisplayMessage.opt O)) = a ++ b := by
    rw [List.filter_append, List.filter_cons]
    have hOO : ((DisplayMessage.opt O : DisplayMessage) == DisplayMessage.opt O) = true := by
      simp
    rw [hfa, hfb]
    simp [hOO]
  have hkeep : ∀ m ∈ a ++ b ++ [DisplayMessage.real M],
      (!(isOptimisticMessage m) || m.content != M.content) = true := by
    intro m hm
    rcases List.mem_append.mp hm with hm | hm
    · have hpm : (isOptimisticMessage m && m.content == M.content) = false := by
        rcases List.mem_append.mp hm with hm | hm
        · exact ha m hm
        · exact hb m hm
      cases hio : isOptimisticMessage m with
      | false => simp [hio]
      | true =>
        rw [hio, Bool.true_and] at hpm
        simp [hio]
        simpa using hpm
    · have hm' : m = DisplayMessage.real M := by simpa using hm
      rw [hm']
      simp [isOptimisticMessage]
  have hsucc : onSuccessHandler M M.content (a ++ b ++ [DisplayMessage.real M]) =
      a ++ b ++ [DisplayMessage.real M] := by
    rw [onSuccessHandler]
    rw [List.filter_eq_self.mpr hkeep]
    rw [if_pos]
    rw [List.any_eq_true]
    refine ⟨DisplayMessage.real M, by simp, ?_⟩
    simp [DisplayMessage.id]
  refine ⟨hdata, ?_⟩
  rw [hdata, hfilter]
  rw [List.append_assoc] at hsucc ⊢
  exact hsucc

/-- Witness for C4: the push for m1 replaces alice's pending placeholder,
and the confirmation arriving afterwards leaves the list unchanged. -/
theorem push_first_confirmation_noop_witness :
    onDataHandler ⟨"m1", "hi", 1, "t1", ⟨"u1", "alice"⟩⟩
        [DisplayMessage.opt
          ⟨"opt-1", "opt-1", "hi", 0, "t1", ⟨"u1", "alice"⟩, MsgStatus.sending, none⟩] =
      [DisplayMessage.opt
          ⟨"opt-1", "opt-1", "hi", 0, "t1", ⟨"u1", "alice"⟩, MsgStatus.sending, none⟩].filter
          (fun m => !(m == DisplayMessage.opt
            ⟨"opt-1", "opt-1", "hi", 0, "t1", ⟨"u1", "alice"⟩, MsgStatus.sending, none⟩)) ++
        [DisplayMessage.real ⟨"m1", "hi", 1, "t1", ⟨"u1", "alice"⟩⟩] ∧
      onSuccessHandler ⟨"m1", "hi", 1, "t1", ⟨"u1", "alice"⟩⟩ "hi"
          (onDataHandler ⟨"m1", "hi", 1, "t1", ⟨"u1", "alice"⟩⟩
            [DisplayMessage.opt
              ⟨"opt-1", "opt-1", "hi", 0, "t1", ⟨"u1", "alice"⟩, MsgStatus.sending, none⟩]) =
        onDataHandler ⟨"m1", "hi", 1, "t1", ⟨"u1", "alice"⟩⟩
          [DisplayMessage.opt
            ⟨"opt-1", "opt-1", "hi", 0, "t1", ⟨"u1", "alice"⟩, MsgStatus.sending, none⟩] :=
  push_first_confirmation_noop
    [DisplayMessage.opt
      ⟨"opt-1", "opt-1", "hi", 0, "t1", ⟨"u1", "alice"⟩, MsgStatus.sending, none⟩]
    ⟨"m1", "hi", 1, "t1", ⟨"u1", "alice"⟩⟩
    ⟨"opt-1", "opt-1", "hi", 0, "t1", ⟨"u1", "alice"⟩, MsgStatus.sending, none⟩
    (by decide) (by decide) rfl

end Messenger
